import Mathlib

/-
Shallow embedding of the bytom block store (database/leveldb/store.go).

The key-value substrate is modelled as an association list from byte keys to
byte values; a batch is a list of staged set/delete operations applied in
order by a single commit.  Bytes are modelled as Nat.  External collaborators
of store.go that are not part of the file itself (the serialization codecs,
the block cache, the mainchain and utxo helpers, the BlockStoreStateJSON
record) are modelled from the specification; each such definition carries a
doc comment saying so.
-/

set_option autoImplicit false

deriving instance DecidableEq for Except

namespace BytomStore

/-- Bytes are modelled as natural numbers; a byte string is a list of them. -/
abbrev Bytes := List Nat

/-- ASCII bytes of a string literal, used to state the bit-exact key layout. -/
def strBytes (s : String) : Bytes :=
  s.data.map Char.toNat

/-- The key-value substrate: an association list from keys to values.
Models the dbm.DB interface (point Get, batched atomic writes). -/
abbrev DB := List (Bytes × Bytes)

/-- Point lookup in the substrate; models db.Get returning nil on absence. -/
def dbGet : DB → Bytes → Option Bytes
  | [], _ => none
  | (k, v) :: rest, key => if k = key then some v else dbGet rest key

/-- Store a value under a key, overwriting any previous binding. -/
def dbSet : DB → Bytes → Bytes → DB
  | [], key, val => [(key, val)]
  | (k, v) :: rest, key, val =>
    if k = key then (key, val) :: rest else (k, v) :: dbSet rest key val

/-- Delete every binding of a key. -/
def dbDel : DB → Bytes → DB
  | [], _ => []
  | (k, v) :: rest, key =>
    if k = key then dbDel rest key else (k, v) :: dbDel rest key

/-- One staged batch operation: a set or a delete. -/
inductive BatchOp where
  | set (key : Bytes) (val : Bytes)
  | del (key : Bytes)
deriving DecidableEq

/-- The key an operation targets. -/
def BatchOp.key : BatchOp → Bytes
  | .set k _ => k
  | .del k => k

/-- A batch is the ordered list of staged operations. -/
abbrev Batch := List BatchOp

/-- Apply one staged operation to the substrate. -/
def applyOp (db : DB) : BatchOp → DB
  | .set k v => dbSet db k v
  | .del k => dbDel db k

/-- Commit a batch: apply all staged operations in order (batch.Write). -/
def batchWrite (db : DB) (b : Batch) : DB :=
  b.foldl applyOp db

/-- Content hash identifier (bc.Hash); 32 bytes in the source, modelled as an
arbitrary byte list wrapped in a structure. -/
structure Hash where
  bytes : Bytes
deriving DecidableEq

/-- Block header (types.BlockHeader): the fields relevant to the store are
its height and its serialized content; version, parent hash and timestamp
are kept to make the record non-degenerate. -/
structure BlockHeader where
  version : Nat
  height : Nat
  previousBlockHash : Hash
  timestamp : Nat
deriving DecidableEq

/-- Block (types.Block): a header plus an ordered list of transactions;
transaction content is opaque to the store and modelled as Nat. -/
structure Block where
  header : BlockHeader
  transactions : List Nat
deriving DecidableEq

/-- Per-block transaction validity flags (bc.TransactionStatus). -/
structure TransactionStatus where
  verifyStatus : List Bool
deriving DecidableEq

/-- One unspent-output record (storage.UtxoEntry). -/
structure UtxoEntry where
  isCoinBase : Bool
  blockHeight : Nat
  spent : Bool
deriving DecidableEq

/-- A UTXO view diff (state.UtxoViewpoint): output id to entry. -/
structure UtxoViewpoint where
  entries : List (Hash × UtxoEntry)
deriving DecidableEq

/-- The checkpoint record (database.BlockStoreStateJSON): current height and
tip hash, the hash optional when no tip exists yet. -/
structure BlockStoreStateJSON where
  height : Nat
  hash : Option Hash
deriving DecidableEq

/-- Error taxonomy of the read side: a record absent from the substrate, a
decode failure on present bytes, or the PanicCrisis fail-fast abort used by
loadBlockStoreStateJSON. -/
inductive StoreErr where
  | notFound (msg : String)
  | corruption (msg : String)
  | panicCrisis (msg : String)
deriving DecidableEq

/-- Modelled from the spec: self-delimiting canonical encoding of a natural
number (unary run of ones closed by a zero), the base codec all record
encodings are built from. -/
def encNat (n : Nat) : Bytes :=
  List.replicate n 1 ++ [0]

/-- Decoder for encNat; returns the value and the remaining bytes. -/
def decNat : Bytes → Option (Nat × Bytes)
  | [] => none
  | 0 :: rest => some (0, rest)
  | 1 :: rest =>
    match decNat rest with
    | some (n, r) => some (n + 1, r)
    | none => none
  | _ :: _ => none

/-- Concatenated encodings of a sequence of naturals. -/
def encNatSeq : List Nat → Bytes
  | [] => []
  | x :: xs => encNat x ++ encNatSeq xs

/-- Decode a known count of naturals, returning them and the rest. -/
def decNatSeq : Nat → Bytes → Option (List Nat × Bytes)
  | 0, bs => some ([], bs)
  | n + 1, bs =>
    match decNat bs with
    | some (x, r) =>
      match decNatSeq n r with
      | some (xs, r2) => some (x :: xs, r2)
      | none => none
    | none => none

/-- Length-prefixed encoding of a list of naturals. -/
def encNatList (xs : List Nat) : Bytes :=
  encNat xs.length ++ encNatSeq xs

/-- Decoder for encNatList. -/
def decNatList (bs : Bytes) : Option (List Nat × Bytes) :=
  match decNat bs with
  | some (n, r) => decNatSeq n r
  | none => none

/-- Modelled from the spec: canonical encoding of a hash (its byte list). -/
def encHash (h : Hash) : Bytes :=
  encNatList h.bytes

/-- Decoder for encHash. -/
def decHash (bs : Bytes) : Option (Hash × Bytes) :=
  match decNatList bs with
  | some (xs, r) => some (⟨xs⟩, r)
  | none => none

/-- Modelled from the spec: canonical binary encoding of a block header
(types.BlockHeader.MarshalText is outside store.go). -/
def encBlockHeader (h : BlockHeader) : Bytes :=
  encNat h.version ++ encNat h.height ++ encHash h.previousBlockHash ++ encNat h.timestamp

/-- Decoder for encBlockHeader, returning the rest. -/
def decBlockHeaderR (bs : Bytes) : Option (BlockHeader × Bytes) :=
  match decNat bs with
  | some (v, r1) =>
    match decNat r1 with
    | some (ht, r2) =>
      match decHash r2 with
      | some (ph, r3) =>
        match decNat r3 with
        | some (ts, r4) => some (⟨v, ht, ph, ts⟩, r4)
        | none => none
      | none => none
    | none => none
  | none => none

/-- Top-level block header decoder (types.BlockHeader.UnmarshalText). -/
def decodeBlockHeader (bs : Bytes) : Option BlockHeader :=
  match decBlockHeaderR bs with
  | some (h, _) => some h
  | none => none

/-- Modelled from the spec: canonical binary encoding of a full block
(types.Block.MarshalText is outside store.go): header then transactions. -/
def encodeBlock (b : Block) : Bytes :=
  encBlockHeader b.header ++ encNatList b.transactions

/-- Top-level block decoder (types.Block.UnmarshalText). -/
def decodeBlock (bs : Bytes) : Option Block :=
  match decBlockHeaderR bs with
  | some (h, r) =>
    match decNatList r with
    | some (txs, _) => some ⟨h, txs⟩
    | none => none
  | none => none

/-- A boolean flag encoded as one natural. -/
def boolByte (b : Bool) : Nat :=
  if b then 1 else 0

/-- Modelled from the spec: canonical encoding of a transaction status
record (proto.Marshal of bc.TransactionStatus is outside store.go). -/
def encTxStatus (ts : TransactionStatus) : Bytes :=
  encNatList (ts.verifyStatus.map boolByte)

/-- Decoder for encTxStatus. -/
def decodeTxStatus (bs : Bytes) : Option TransactionStatus :=
  match decNatList bs with
  | some (xs, _) => some ⟨xs.map (fun n => n == 1)⟩
  | none => none

/-- Modelled from the spec: canonical encoding of a seed, which is a hash
(proto.Marshal of bc.Hash is outside store.go). -/
def encSeed (h : Hash) : Bytes :=
  encHash h

/-- Decoder for encSeed. -/
def decodeSeed (bs : Bytes) : Option Hash :=
  match decHash bs with
  | some (h, _) => some h
  | none => none

/-- Modelled from the spec: encoding of the checkpoint record
(json.Marshal of database.BlockStoreStateJSON is outside store.go);
height then an option tag for the tip hash. -/
def encStoreState (s : BlockStoreStateJSON) : Bytes :=
  encNat s.height ++
    (match s.hash with
     | none => encNat 0
     | some h => encNat 1 ++ encHash h)

/-- Decoder for encStoreState. -/
def decodeStoreState (bs : Bytes) : Option BlockStoreStateJSON :=
  match decNat bs with
  | some (ht, r1) =>
    match decNat r1 with
    | some (0, _) => some ⟨ht, none⟩
    | some (1, r2) =>
      match decHash r2 with
      | some (h, _) => some ⟨ht, some h⟩
      | none => none
    | some (_, _) => none
    | none => none
  | none => none

/-- Concatenated encodings of mainchain map entries. -/
def encMcSeq : List (Nat × Hash) → Bytes
  | [] => []
  | (ht, h) :: rest => encNat ht ++ encHash h ++ encMcSeq rest

/-- Decode a known count of mainchain entries. -/
def decMcSeq : Nat → Bytes → Option (List (Nat × Hash) × Bytes)
  | 0, bs => some ([], bs)
  | n + 1, bs =>
    match decNat bs with
    | some (ht, r1) =>
      match decHash r1 with
      | some (h, r2) =>
        match decMcSeq n r2 with
        | some (rest, r3) => some ((ht, h) :: rest, r3)
        | none => none
      | none => none
    | none => none

/-- Modelled from the spec: encoding of the mainchain height-to-hash map
(the mainchain codec is outside store.go). -/
def encMainchain (m : List (Nat × Hash)) : Bytes :=
  encNat m.length ++ encMcSeq m

/-- Decoder for encMainchain. -/
def decodeMainchain (bs : Bytes) : Option (List (Nat × Hash)) :=
  match decNat bs with
  | some (n, r) =>
    match decMcSeq n r with
    | some (m, _) => some m
    | none => none
  | none => none

/-- Modelled from the spec: encoding of one utxo entry
(proto.Marshal of storage.UtxoEntry is outside store.go). -/
def encUtxoEntry (e : UtxoEntry) : Bytes :=
  encNat (boolByte e.isCoinBase) ++ encNat e.blockHeight ++ encNat (boolByte e.spent)

/-- Source: blockStoreKey = byte string "blockStore". -/
def blockStoreKey : Bytes :=
  strBytes "blockStore"

/-- Source: blockPrefix = byte string "B:". -/
def blockPfx : Bytes :=
  strBytes "B:"

/-- Source: blockHeaderPrefix = byte string "BH:". -/
def blockHeaderPfx : Bytes :=
  strBytes "BH:"

/-- Source: blockSeedPrefix = byte string "BS:". -/
def blockSeedPfx : Bytes :=
  strBytes "BS:"

/-- Source: txStatusPrefix = byte string "BTS:". -/
def txStatusPfx : Bytes :=
  strBytes "BTS:"

/-- Modelled from the spec: the mainchain records use an
implementation-defined key space distinct from the other kinds
(the mainchain helpers are outside store.go). -/
def mainchainPfx : Bytes :=
  strBytes "MC:"

/-- Modelled from the spec: the utxo records use a key space of their own
(the utxo helpers are outside store.go). -/
def utxoPfx : Bytes :=
  strBytes "UT:"

/-- Source: calcBlockKey appends the hash bytes to the block prefix. -/
def calcBlockKey (hash : Hash) : Bytes :=
  blockPfx ++ hash.bytes

/-- Source: calcBlockHeaderKey appends the hash bytes to the header prefix. -/
def calcBlockHeaderKey (hash : Hash) : Bytes :=
  blockHeaderPfx ++ hash.bytes

/-- Source: calcSeedKey appends the hash bytes to the seed prefix. -/
def calcSeedKey (hash : Hash) : Bytes :=
  blockSeedPfx ++ hash.bytes

/-- Source: calcTxStatusKey appends the hash bytes to the status prefix. -/
def calcTxStatusKey (hash : Hash) : Bytes :=
  txStatusPfx ++ hash.bytes

/-- Modelled from the spec: key of the mainchain record of a given tip. -/
def calcMainchainKey (hash : Hash) : Bytes :=
  mainchainPfx ++ hash.bytes

/-- Modelled from the spec: key of the utxo record of a given output id. -/
def calcUtxoKey (hash : Hash) : Bytes :=
  utxoPfx ++ hash.bytes

/-- Modelled from the spec: the block hash is the content identifier of the
block, determined by its header (types.Block.Hash is outside store.go). -/
def blockHash (b : Block) : Hash :=
  ⟨encBlockHeader b.header⟩

/-- The encode side of the external codecs that store.go calls
(MarshalText, proto.Marshal, json.Marshal); the store is parametric in
them because each call can fail in the source.  stdCodecs instantiates
them with the canonical total encoders above. -/
structure Codecs where
  marshalBlock : Block → Except String Bytes
  marshalBlockHeader : BlockHeader → Except String Bytes
  marshalTxStatus : TransactionStatus → Except String Bytes
  marshalSeed : Hash → Except String Bytes
  marshalStoreState : BlockStoreStateJSON → Except String Bytes
  marshalMainchain : List (Nat × Hash) → Except String Bytes
  marshalUtxoEntry : UtxoEntry → Except String Bytes

/-- The canonical codecs: every encoder succeeds with the canonical
encoding. -/
def stdCodecs : Codecs :=
  ⟨fun b => .ok (encodeBlock b),
   fun h => .ok (encBlockHeader h),
   fun ts => .ok (encTxStatus ts),
   fun sd => .ok (encSeed sd),
   fun s => .ok (encStoreState s),
   fun m => .ok (encMainchain m),
   fun e => .ok (encUtxoEntry e)⟩

/-- Codecs in which every encoder fails; used to exhibit the
serialization-failure paths. -/
def failCodecs : Codecs :=
  ⟨fun _ => .error "encode failure",
   fun _ => .error "encode failure",
   fun _ => .error "encode failure",
   fun _ => .error "encode failure",
   fun _ => .error "encode failure",
   fun _ => .error "encode failure",
   fun _ => .error "encode failure"⟩

/-- Source: loadBlockStoreStateJSON reads the blockStore key; absence gives
the default state of height 0, bytes that fail to decode make the process
abort via common.PanicCrisis, modelled as the panicCrisis error. -/
def loadBlockStoreStateJSON (db : DB) : Except StoreErr BlockStoreStateJSON :=
  match dbGet db blockStoreKey with
  | none => .ok ⟨0, none⟩
  | some bytes =>
    match decodeStoreState bytes with
    | some bsj => .ok bsj
    | none => .error (.panicCrisis "Could not unmarshal bytes")

/-- Zero value of types.Block, what the Go expression new(types.Block)
denotes before any field is assigned. -/
def zeroBlock : Block :=
  ⟨⟨0, 0, ⟨[]⟩, 0⟩, []⟩

/-- Source: the package-level GetBlock reads the block key, returns nil on
absence, and IGNORES the error of block.UnmarshalText, returning the block
value (the zero value when decoding fails) in every present case. -/
def GetBlockDB (db : DB) (hash : Hash) : Option Block :=
  match dbGet db (calcBlockKey hash) with
  | none => none
  | some bytez =>
    match decodeBlock bytez with
    | some b => some b
    | none => some zeroBlock

/-- The block cache state: decoded blocks keyed by hash. -/
abbrev BlockCache := List (Hash × Block)

/-- First cached block for a hash, if any. -/
def cacheFind : BlockCache → Hash → Option Block
  | [], _ => none
  | (k, b) :: rest, h => if k = h then some b else cacheFind rest h

/-- Modelled from the spec: the read-through block cache (block_cache.go is
outside store.go).  A hit returns the cached block; a miss invokes the
loader, caches a found block, and reports NotFound otherwise (negative
results are not cached).  Capacity eviction is elided: it only removes
entries and the spec states it never affects results. -/
def cacheLookup (loader : Hash → Option Block) (cache : BlockCache) (hash : Hash) :
    Except StoreErr Block × BlockCache :=
  match cacheFind cache hash with
  | some b => (.ok b, cache)
  | none =>
    match loader hash with
    | some b => (.ok b, (hash, b) :: cache)
    | none => (.error (.notFound "can not find block by hash"), cache)

/-- The store facade: the substrate handle plus the block cache, as wired
by NewStore with the package-level GetBlock as the cache loader. -/
structure Store where
  db : DB
  cache : BlockCache
deriving DecidableEq

/-- Source: Store.GetBlock delegates to the cache lookup whose loader is
the package-level GetBlock on the same substrate. -/
def Store.GetBlock (s : Store) (hash : Hash) : Except StoreErr Block × Store :=
  match cacheLookup (GetBlockDB s.db) s.cache hash with
  | (r, cache2) => (r, ⟨s.db, cache2⟩)

/-- Source: Store.GetBlockHeader reads the header key directly; absence is
the NotFound error of the source, a decode failure is surfaced. -/
def Store.GetBlockHeader (s : Store) (hash : Hash) : Except StoreErr BlockHeader :=
  match dbGet s.db (calcBlockHeaderKey hash) with
  | none => .error (.notFound "can not find the block header by given hash")
  | some bytez =>
    match decodeBlockHeader bytez with
    | some bh => .ok bh
    | none => .error (.corruption "unmarshaling block header")

/-- Source: Store.GetSeed reads the seed key; absence is NotFound, a
proto.Unmarshal failure is wrapped and surfaced. -/
def Store.GetSeed (s : Store) (hash : Hash) : Except StoreErr Hash :=
  match dbGet s.db (calcSeedKey hash) with
  | none => .error (.notFound "can not find the seed by given hash")
  | some data =>
    match decodeSeed data with
    | some seed => .ok seed
    | none => .error (.corruption "unmarshaling seed")

/-- Source: Store.GetTransactionStatus reads the status key; absence is
NotFound, a proto.Unmarshal failure is wrapped and surfaced. -/
def Store.GetTransactionStatus (s : Store) (hash : Hash) : Except StoreErr TransactionStatus :=
  match dbGet s.db (calcTxStatusKey hash) with
  | none => .error (.notFound "can not find the transaction status by given hash")
  | some data =>
    match decodeTxStatus data with
    | some ts => .ok ts
    | none => .error (.corruption "unmarshaling transaction status")

/-- Source: Store.GetStoreStatus returns loadBlockStoreStateJSON of the
substrate. -/
def Store.GetStoreStatus (s : Store) : Except StoreErr BlockStoreStateJSON :=
  loadBlockStoreStateJSON s.db

/-- Modelled from the spec: getMainchain (outside store.go) reads the
mainchain record of the given tip hash and decodes the height map. -/
def getMainchain (db : DB) (hash : Hash) : Except StoreErr (List (Nat × Hash)) :=
  match dbGet db (calcMainchainKey hash) with
  | none => .error (.notFound "can not find mainchain by given hash")
  | some bs =>
    match decodeMainchain bs with
    | some m => .ok m
    | none => .error (.corruption "unmarshaling mainchain")

/-- Source: Store.GetMainchain delegates to getMainchain on the substrate. -/
def Store.GetMainchain (s : Store) (hash : Hash) : Except StoreErr (List (Nat × Hash)) :=
  getMainchain s.db hash

/-- Lookup of a height in a mainchain map. -/
def lookupHeight : List (Nat × Hash) → Nat → Option Hash
  | [], _ => none
  | (ht, h) :: rest, q => if ht = q then some h else lookupHeight rest q

/-- Source: Store.SaveBlock marshals the block, its header, the transaction
status and the seed, aborting with an error if any encoder fails, then
stages the four records under the hash-derived keys into one batch and
commits it. -/
def Store.SaveBlock (c : Codecs) (s : Store) (block : Block) (ts : TransactionStatus)
    (seed : Hash) : Except String Unit × Store :=
  match c.marshalBlock block with
  | .error e => (.error ("Marshal block meta: " ++ e), s)
  | .ok binaryBlock =>
    match c.marshalBlockHeader block.header with
    | .error e => (.error ("Marshal block header: " ++ e), s)
    | .ok binaryBlockHeader =>
      match c.marshalTxStatus ts with
      | .error e => (.error ("marshal block transaction status: " ++ e), s)
      | .ok binaryTxStatus =>
        match c.marshalSeed seed with
        | .error e => (.error ("marshal block seed: " ++ e), s)
        | .ok binarySeed =>
          let h := blockHash block
          let batch : Batch :=
            [.set (calcBlockKey h) binaryBlock,
             .set (calcBlockHeaderKey h) binaryBlockHeader,
             .set (calcTxStatusKey h) binaryTxStatus,
             .set (calcSeedKey h) binarySeed]
          (.ok (), ⟨batchWrite s.db batch, s.cache⟩)

/-- Modelled from the spec: saveMainchain (outside store.go) encodes the
height map and stages it under the mainchain key of the new tip. -/
def saveMainchain (c : Codecs) (m : List (Nat × Hash)) (hash : Hash) : Except String Batch :=
  match c.marshalMainchain m with
  | .error e => .error e
  | .ok bs => .ok [.set (calcMainchainKey hash) bs]

/-- Modelled from the spec: saveUtxoView (outside store.go) turns the view
into staged operations: a spent non-coinbase entry becomes a delete of its
utxo key, every other entry is encoded and staged as a set; an encoder
failure aborts the whole construction. -/
def saveUtxoViewOps (c : Codecs) : List (Hash × UtxoEntry) → Except String Batch
  | [] => .ok []
  | (key, entry) :: rest =>
    if entry.spent && !entry.isCoinBase then
      match saveUtxoViewOps c rest with
      | .error e => .error e
      | .ok ops => .ok (.del (calcUtxoKey key) :: ops)
    else
      match c.marshalUtxoEntry entry with
      | .error e => .error ("marshaling utxo entry: " ++ e)
      | .ok bs =>
        match saveUtxoViewOps c rest with
        | .error e => .error e
        | .ok ops => .ok (.set (calcUtxoKey key) bs :: ops)

/-- The staged operations of a whole view. -/
def saveUtxoView (c : Codecs) (view : UtxoViewpoint) : Except String Batch :=
  saveUtxoViewOps c view.entries

/-- Boolean test that the first byte string starts the second. -/
def keyHasPfx : Bytes → Bytes → Bool
  | [], _ => true
  | _ :: _, [] => false
  | p :: ps, k :: ks => p == k && keyHasPfx ps ks

/-- Modelled from the spec: cleanMainchainDB (outside store.go) prunes every
mainchain record whose key is not the one of the current tip. -/
def cleanMainchainDB (db : DB) (hash : Hash) : DB :=
  match db with
  | [] => []
  | (k, v) :: rest =>
    if keyHasPfx mainchainPfx k = true ∧ k ≠ calcMainchainKey hash then
      cleanMainchainDB rest hash
    else
      (k, v) :: cleanMainchainDB rest hash

/-- Source: Store.SaveChainStatus stages the mainchain record, the utxo view
diff and the new checkpoint into one batch, aborting with an error before
any commit if a stage fails, then commits the batch and prunes stale
mainchain records. -/
def Store.SaveChainStatus (c : Codecs) (s : Store) (block : Block) (view : UtxoViewpoint)
    (m : List (Nat × Hash)) : Except String Unit × Store :=
  let hash := blockHash block
  match saveMainchain c m hash with
  | .error e => (.error e, s)
  | .ok mcOps =>
    match saveUtxoView c view with
    | .error e => (.error e, s)
    | .ok utxoOps =>
      match c.marshalStoreState ⟨block.header.height, some hash⟩ with
      | .error e => (.error e, s)
      | .ok bytes =>
        let db2 := batchWrite s.db (mcOps ++ utxoOps ++ [.set blockStoreKey bytes])
        (.ok (), ⟨cleanMainchainDB db2 hash, s.cache⟩)

/-- Source: Store.SaveUtxoView creates a fresh batch, stages the view into
it via saveUtxoView and returns its result; the batch is never committed. -/
def Store.SaveUtxoView (c : Codecs) (s : Store) (view : UtxoViewpoint) :
    Except String Unit × Store :=
  match saveUtxoView c view with
  | .error e => (.error e, s)
  | .ok _ => (.ok (), s)

/-- A concrete block header used to evaluate the operations. -/
def sampleHeader : BlockHeader :=
  ⟨1, 2, ⟨[3]⟩, 4⟩

/-- A concrete block used to evaluate the operations. -/
def sampleBlock : Block :=
  ⟨sampleHeader, [5]⟩

/-- A concrete transaction status used to evaluate the operations. -/
def sampleStatus : TransactionStatus :=
  ⟨[true]⟩

/-- A concrete seed used to evaluate the operations. -/
def sampleSeed : Hash :=
  ⟨[9]⟩

/-- A store over an empty substrate with an empty cache. -/
def emptyStore : Store :=
  ⟨[], []⟩

theorem dbGet_dbSet_self (db : DB) (k v : Bytes) :
    dbGet (dbSet db k v) k = some v := by
  induction db with
  | nil => simp [dbSet, dbGet]
  | cons p rest ih =>
    obtain ⟨k1, v1⟩ := p
    by_cases h : k1 = k
    · simp [dbSet, h, dbGet]
    · simp [dbSet, h, dbGet, ih]

theorem dbGet_dbSet_ne (db : DB) {k k2 : Bytes} (v : Bytes) (h : k ≠ k2) :
    dbGet (dbSet db k v) k2 = dbGet db k2 := by
  induction db with
  | nil => simp [dbSet, dbGet, h]
  | cons p rest ih =>
    obtain ⟨k1, v1⟩ := p
    by_cases h1 : k1 = k
    · subst h1
      simp [dbSet, dbGet, h]
    · simp [dbSet, h1, dbGet, ih]

theorem dbSet_eq_of_get {db : DB} {k v : Bytes} (h : dbGet db k = some v) :
    dbSet db k v = db := by
  induction db with
  | nil => simp [dbGet] at h
  | cons p rest ih =>
    obtain ⟨k1, v1⟩ := p
    by_cases h1 : k1 = k
    · subst h1
      simp [dbGet] at h
      simp [dbSet, h]
    · simp [dbGet, h1] at h
      simp [dbSet, h1, ih h]

theorem dbGet_dbDel_ne (db : DB) {k dk : Bytes} (h : dk ≠ k) :
    dbGet (dbDel db dk) k = dbGet db k := by
  induction db with
  | nil => simp [dbDel]
  | cons p rest ih =>
    obtain ⟨k1, v1⟩ := p
    by_cases h1 : k1 = dk
    · subst h1
      simp [dbDel, dbGet, h, ih]
    · simp [dbDel, h1, dbGet, ih]

theorem batchWrite_append (db : DB) (l1 l2 : Batch) :
    batchWrite db (l1 ++ l2) = batchWrite (batchWrite db l1) l2 := by
  simp [batchWrite, List.foldl_append]

theorem dbGet_batchWrite_untouched (ops : Batch) (db : DB) {k : Bytes}
    (h : ∀ op ∈ ops, BatchOp.key op ≠ k) :
    dbGet (batchWrite db ops) k = dbGet db k := by
  induction ops generalizing db with
  | nil => simp [batchWrite]
  | cons op rest ih =>
    have hop : BatchOp.key op ≠ k := h op (by simp)
    have hrest : ∀ op2 ∈ rest, BatchOp.key op2 ≠ k := fun op2 hm => h op2 (by simp [hm])
    have hstep : dbGet (applyOp db op) k = dbGet db k := by
      cases op with
      | set k1 v1 => exact dbGet_dbSet_ne db v1 hop
      | del k1 => exact dbGet_dbDel_ne db hop
    calc dbGet (batchWrite db (op :: rest)) k
        = dbGet (batchWrite (applyOp db op) rest) k := rfl
      _ = dbGet (applyOp db op) k := ih (applyOp db op) hrest
      _ = dbGet db k := hstep

theorem decNat_encNat (n : Nat) (r : Bytes) :
    decNat (encNat n ++ r) = some (n, r) := by
  induction n with
  | zero => simp [encNat, decNat]
  | succ n ih =>
    have h : encNat (n + 1) ++ r = 1 :: (encNat n ++ r) := by
      simp [encNat, List.replicate_succ]
    rw [h]
    simp [decNat, ih]

theorem decNatSeq_encNatSeq (xs : List Nat) (r : Bytes) :
    decNatSeq xs.length (encNatSeq xs ++ r) = some (xs, r) := by
  induction xs generalizing r with
  | nil => simp [encNatSeq, decNatSeq]
  | cons x xs ih =>
    have h : encNatSeq (x :: xs) ++ r = encNat x ++ (encNatSeq xs ++ r) := by
      simp [encNatSeq]
    rw [List.length_cons, h]
    simp [decNatSeq, decNat_encNat, ih]

theorem decNatList_encNatList (xs : List Nat) (r : Bytes) :
    decNatList (encNatList xs ++ r) = some (xs, r) := by
  have h : encNatList xs ++ r = encNat xs.length ++ (encNatSeq xs ++ r) := by
    simp [encNatList]
  rw [h]
  simp [decNatList, decNat_encNat, decNatSeq_encNatSeq]

theorem decHash_encHash (h : Hash) (r : Bytes) :
    decHash (encHash h ++ r) = some (h, r) := by
  simp [encHash, decHash, decNatList_encNatList]

theorem decBlockHeaderR_enc (h : BlockHeader) (r : Bytes) :
    decBlockHeaderR (encBlockHeader h ++ r) = some (h, r) := by
  have e : encBlockHeader h ++ r =
      encNat h.version ++ (encNat h.height ++ (encHash h.previousBlockHash ++ (encNat h.timestamp ++ r))) := by
    simp [encBlockHeader]
  rw [e]
  simp [decBlockHeaderR, decNat_encNat, decHash_encHash]

theorem decNat_encNat0 (n : Nat) :
    decNat (encNat n) = some (n, []) := by
  have h := decNat_encNat n []
  simpa using h

theorem decNatList_encNatList0 (xs : List Nat) :
    decNatList (encNatList xs) = some (xs, []) := by
  have h := decNatList_encNatList xs []
  simpa using h

theorem decHash_encHash0 (h : Hash) :
    decHash (encHash h) = some (h, []) := by
  have e := decHash_encHash h []
  simpa using e

theorem decodeBlockHeader_enc (h : BlockHeader) :
    decodeBlockHeader (encBlockHeader h) = some h := by
  have e : encBlockHeader h = encBlockHeader h ++ [] := by simp
  rw [decodeBlockHeader, e, decBlockHeaderR_enc]

theorem decodeBlock_enc (b : Block) :
    decodeBlock (encodeBlock b) = some b := by
  simp [decodeBlock, encodeBlock, decBlockHeaderR_enc, decNatList_encNatList0]

theorem comp_boolByte_eq_id :
    ((fun n => n == 1) ∘ boolByte) = id := by
  funext b
  cases b <;> rfl

theorem decodeTxStatus_enc (ts : TransactionStatus) :
    decodeTxStatus (encTxStatus ts) = some ts := by
  simp [decodeTxStatus, encTxStatus, decNatList_encNatList0, List.map_map, comp_boolByte_eq_id]

theorem decodeSeed_enc (h : Hash) :
    decodeSeed (encSeed h) = some h := by
  simp [decodeSeed, encSeed, decHash_encHash0]

theorem decodeStoreState_enc (s : BlockStoreStateJSON) :
    decodeStoreState (encStoreState s) = some s := by
  cases s with
  | mk height hash =>
    cases hash with
    | none =>
      simp [decodeStoreState, encStoreState, decNat_encNat, decNat_encNat0]
    | some h =>
      have e : encStoreState ⟨height, some h⟩ =
          encNat height ++ (encNat 1 ++ encHash h) := by
        simp [encStoreState]
      rw [decodeStoreState, e, decNat_encNat]
      simp [decNat_encNat, decHash_encHash0]

theorem decMcSeq_encMcSeq (m : List (Nat × Hash)) (r : Bytes) :
    decMcSeq m.length (encMcSeq m ++ r) = some (m, r) := by
  induction m generalizing r with
  | nil => simp [encMcSeq, decMcSeq]
  | cons p rest ih =>
    obtain ⟨ht, h⟩ := p
    have e : encMcSeq ((ht, h) :: rest) ++ r =
        encNat ht ++ (encHash h ++ (encMcSeq rest ++ r)) := by
      simp [encMcSeq]
    rw [List.length_cons, e]
    simp [decMcSeq, decNat_encNat, decHash_encHash, ih]

theorem decMcSeq_encMcSeq0 (m : List (Nat × Hash)) :
    decMcSeq m.length (encMcSeq m) = some (m, []) := by
  have h := decMcSeq_encMcSeq m []
  simpa using h

theorem decodeMainchain_enc (m : List (Nat × Hash)) :
    decodeMainchain (encMainchain m) = some m := by
  simp [decodeMainchain, encMainchain, decNat_encNat, decMcSeq_encMcSeq0]

theorem blockPfx_bytes : blockPfx = [66, 58] := by decide

theorem blockHeaderPfx_bytes : blockHeaderPfx = [66, 72, 58] := by decide

theorem blockSeedPfx_bytes : blockSeedPfx = [66, 83, 58] := by decide

theorem txStatusPfx_bytes : txStatusPfx = [66, 84, 83, 58] := by decide

theorem mainchainPfx_bytes : mainchainPfx = [77, 67, 58] := by decide

theorem utxoPfx_bytes : utxoPfx = [85, 84, 58] := by decide

theorem blockStoreKey_bytes :
    blockStoreKey = [98, 108, 111, 99, 107, 83, 116, 111, 114, 101] := by decide

theorem blockKey_ne_headerKey (h1 h2 : Hash) :
    calcBlockKey h1 ≠ calcBlockHeaderKey h2 := by
  simp [calcBlockKey, calcBlockHeaderKey, blockPfx_bytes, blockHeaderPfx_bytes]

theorem blockKey_ne_txStatusKey (h1 h2 : Hash) :
    calcBlockKey h1 ≠ calcTxStatusKey h2 := by
  simp [calcBlockKey, calcTxStatusKey, blockPfx_bytes, txStatusPfx_bytes]

theorem blockKey_ne_seedKey (h1 h2 : Hash) :
    calcBlockKey h1 ≠ calcSeedKey h2 := by
  simp [calcBlockKey, calcSeedKey, blockPfx_bytes, blockSeedPfx_bytes]

theorem headerKey_ne_txStatusKey (h1 h2 : Hash) :
    calcBlockHeaderKey h1 ≠ calcTxStatusKey h2 := by
  simp [calcBlockHeaderKey, calcTxStatusKey, blockHeaderPfx_bytes, txStatusPfx_bytes]

theorem headerKey_ne_seedKey (h1 h2 : Hash) :
    calcBlockHeaderKey h1 ≠ calcSeedKey h2 := by
  simp [calcBlockHeaderKey, calcSeedKey, blockHeaderPfx_bytes, blockSeedPfx_bytes]

theorem txStatusKey_ne_seedKey (h1 h2 : Hash) :
    calcTxStatusKey h1 ≠ calcSeedKey h2 := by
  simp [calcTxStatusKey, calcSeedKey, txStatusPfx_bytes, blockSeedPfx_bytes]

theorem utxoKey_ne_mcKey (h1 h2 : Hash) :
    calcUtxoKey h1 ≠ calcMainchainKey h2 := by
  simp [calcUtxoKey, calcMainchainKey, utxoPfx_bytes, mainchainPfx_bytes]

theorem blockStoreKey_ne_mcKey (h : Hash) :
    blockStoreKey ≠ calcMainchainKey h := by
  simp [blockStoreKey_bytes, calcMainchainKey, mainchainPfx_bytes]

theorem keyHasPfx_mc_blockStoreKey :
    keyHasPfx mainchainPfx blockStoreKey = false := by decide

theorem dbGet_clean_of_noPfx (db : DB) (hash : Hash) {k : Bytes}
    (h : keyHasPfx mainchainPfx k = false) :
    dbGet (cleanMainchainDB db hash) k = dbGet db k := by
  induction db with
  | nil => rfl
  | cons p rest ih =>
    obtain ⟨k1, v1⟩ := p
    by_cases hpfx : keyHasPfx mainchainPfx k1 = true
    · have hne : k1 ≠ k := by
        intro he
        rw [he, h] at hpfx
        cases hpfx
      by_cases hmc : k1 = calcMainchainKey hash
      · simp [cleanMainchainDB, hpfx, hmc, dbGet, hne, ih]
      · simp [cleanMainchainDB, hpfx, hmc, dbGet, hne, ih]
    · by_cases h2 : k1 = k
      · simp [cleanMainchainDB, hpfx, dbGet, h2, h]
      · simp [cleanMainchainDB, hpfx, dbGet, h2, ih]

theorem dbGet_clean_mcKey (db : DB) (hash : Hash) :
    dbGet (cleanMainchainDB db hash) (calcMainchainKey hash) =
      dbGet db (calcMainchainKey hash) := by
  induction db with
  | nil => rfl
  | cons p rest ih =>
    obtain ⟨k1, v1⟩ := p
    by_cases hmc : k1 = calcMainchainKey hash
    · simp [cleanMainchainDB, hmc, dbGet]
    · by_cases hpfx : keyHasPfx mainchainPfx k1 = true
      · simp [cleanMainchainDB, hpfx, hmc, dbGet, ih]
      · simp [cleanMainchainDB, hpfx, hmc, dbGet, ih]

theorem stdCodecs_utxo (e : UtxoEntry) :
    stdCodecs.marshalUtxoEntry e = .ok (encUtxoEntry e) := rfl

theorem stdCodecs_storeState (s : BlockStoreStateJSON) :
    stdCodecs.marshalStoreState s = .ok (encStoreState s) := rfl

theorem saveMainchain_std (m : List (Nat × Hash)) (hash : Hash) :
    saveMainchain stdCodecs m hash = .ok [.set (calcMainchainKey hash) (encMainchain m)] := rfl

theorem saveUtxoViewOps_std (l : List (Hash × UtxoEntry)) :
    ∃ ops, saveUtxoViewOps stdCodecs l = .ok ops ∧
      ∀ op ∈ ops, ∃ kh, BatchOp.key op = calcUtxoKey kh := by
  induction l with
  | nil => exact ⟨[], rfl, by simp⟩
  | cons p rest ih =>
    obtain ⟨key, entry⟩ := p
    obtain ⟨ops, hops, hkeys⟩ := ih
    by_cases hsp : (entry.spent && !entry.isCoinBase) = true
    · refine ⟨.del (calcUtxoKey key) :: ops, ?_, ?_⟩
      · have e1 : saveUtxoViewOps stdCodecs ((key, entry) :: rest) =
            match saveUtxoViewOps stdCodecs rest with
            | .error e => .error e
            | .ok ops => .ok (.del (calcUtxoKey key) :: ops) := by
          simp [saveUtxoViewOps, hsp]
        rw [e1, hops]
      · intro op hm
        rcases List.mem_cons.mp hm with he | hmem
        · exact ⟨key, by rw [he]; rfl⟩
        · exact hkeys op hmem
    · refine ⟨.set (calcUtxoKey key) (encUtxoEntry entry) :: ops, ?_, ?_⟩
      · have e1 : saveUtxoViewOps stdCodecs ((key, entry) :: rest) =
            match saveUtxoViewOps stdCodecs rest with
            | .error e => .error e
            | .ok ops => .ok (.set (calcUtxoKey key) (encUtxoEntry entry) :: ops) := by
          simp [saveUtxoViewOps, hsp, stdCodecs_utxo]
        rw [e1, hops]
      · intro op hm
        rcases List.mem_cons.mp hm with he | hmem
        · exact ⟨key, by rw [he]; rfl⟩
        · exact hkeys op hmem

theorem saveBlock_std (s : Store) (b : Block) (t : TransactionStatus) (sd : Hash) :
    Store.SaveBlock stdCodecs s b t sd =
      (.ok (), ⟨dbSet (dbSet (dbSet (dbSet s.db
          (calcBlockKey (blockHash b)) (encodeBlock b))
          (calcBlockHeaderKey (blockHash b)) (encBlockHeader b.header))
          (calcTxStatusKey (blockHash b)) (encTxStatus t))
          (calcSeedKey (blockHash b)) (encSeed sd), s.cache⟩) := rfl

theorem saveChainStatus_std (s : Store) (b : Block) (v : UtxoViewpoint)
    (m : List (Nat × Hash)) :
    ∃ utxoOps, saveUtxoView stdCodecs v = .ok utxoOps ∧
      (∀ op ∈ utxoOps, ∃ kh, BatchOp.key op = calcUtxoKey kh) ∧
      Store.SaveChainStatus stdCodecs s b v m =
        (.ok (), ⟨cleanMainchainDB
          (batchWrite s.db
            ([.set (calcMainchainKey (blockHash b)) (encMainchain m)] ++ utxoOps ++
              [.set blockStoreKey (encStoreState ⟨b.header.height, some (blockHash b)⟩)]))
          (blockHash b), s.cache⟩) := by
  obtain ⟨ops, hops, hkeys⟩ := saveUtxoViewOps_std v.entries
  refine ⟨ops, hops, hkeys, ?_⟩
  have hview : saveUtxoView stdCodecs v = .ok ops := hops
  rw [Store.SaveChainStatus, saveMainchain_std, hview, stdCodecs_storeState]

theorem batchWrite_cons (db : DB) (op : BatchOp) (rest : Batch) :
    batchWrite db (op :: rest) = batchWrite (applyOp db op) rest := rfl

theorem batchWrite_nil (db : DB) :
    batchWrite db [] = db := rfl

theorem applyOp_set (db : DB) (k v : Bytes) :
    applyOp db (.set k v) = dbSet db k v := rfl

theorem saveBlock_db_get_block (s : Store) (b : Block) (t : TransactionStatus) (sd : Hash) :
    dbGet (Store.SaveBlock stdCodecs s b t sd).2.db (calcBlockKey (blockHash b)) =
      some (encodeBlock b) := by
  rw [saveBlock_std]
  rw [dbGet_dbSet_ne _ _ (Ne.symm (blockKey_ne_seedKey (blockHash b) (blockHash b))),
    dbGet_dbSet_ne _ _ (Ne.symm (blockKey_ne_txStatusKey (blockHash b) (blockHash b))),
    dbGet_dbSet_ne _ _ (Ne.symm (blockKey_ne_headerKey (blockHash b) (blockHash b))),
    dbGet_dbSet_self]

theorem saveBlock_db_get_header (s : Store) (b : Block) (t : TransactionStatus) (sd : Hash) :
    dbGet (Store.SaveBlock stdCodecs s b t sd).2.db (calcBlockHeaderKey (blockHash b)) =
      some (encBlockHeader b.header) := by
  rw [saveBlock_std]
  rw [dbGet_dbSet_ne _ _ (Ne.symm (headerKey_ne_seedKey (blockHash b) (blockHash b))),
    dbGet_dbSet_ne _ _ (Ne.symm (headerKey_ne_txStatusKey (blockHash b) (blockHash b))),
    dbGet_dbSet_self]

theorem saveBlock_db_get_txStatus (s : Store) (b : Block) (t : TransactionStatus) (sd : Hash) :
    dbGet (Store.SaveBlock stdCodecs s b t sd).2.db (calcTxStatusKey (blockHash b)) =
      some (encTxStatus t) := by
  rw [saveBlock_std]
  rw [dbGet_dbSet_ne _ _ (Ne.symm (txStatusKey_ne_seedKey (blockHash b) (blockHash b))),
    dbGet_dbSet_self]

theorem saveBlock_db_get_seed (s : Store) (b : Block) (t : TransactionStatus) (sd : Hash) :
    dbGet (Store.SaveBlock stdCodecs s b t sd).2.db (calcSeedKey (blockHash b)) =
      some (encSeed sd) := by
  rw [saveBlock_std]
  rw [dbGet_dbSet_self]

theorem saveBlock_cache_eq (s : Store) (b : Block) (t : TransactionStatus) (sd : Hash) :
    (Store.SaveBlock stdCodecs s b t sd).2.cache = s.cache := by
  rw [saveBlock_std]

theorem scs_fst_ok (s : Store) (b : Block) (v : UtxoViewpoint) (m : List (Nat × Hash)) :
    (Store.SaveChainStatus stdCodecs s b v m).1 = .ok () := by
  obtain ⟨ops, hops, hkeys, heq⟩ := saveChainStatus_std s b v m
  rw [heq]

theorem scs_db_get_blockStore (s : Store) (b : Block) (v : UtxoViewpoint)
    (m : List (Nat × Hash)) :
    dbGet (Store.SaveChainStatus stdCodecs s b v m).2.db blockStoreKey =
      some (encStoreState ⟨b.header.height, some (blockHash b)⟩) := by
  obtain ⟨ops, hops, hkeys, heq⟩ := saveChainStatus_std s b v m
  rw [heq]
  dsimp only
  rw [dbGet_clean_of_noPfx _ _ keyHasPfx_mc_blockStoreKey]
  rw [batchWrite_append]
  rw [batchWrite_cons, applyOp_set, batchWrite_nil]
  exact dbGet_dbSet_self _ _ _

theorem scs_db_get_mc (s : Store) (b : Block) (v : UtxoViewpoint)
    (m : List (Nat × Hash)) :
    dbGet (Store.SaveChainStatus stdCodecs s b v m).2.db (calcMainchainKey (blockHash b)) =
      some (encMainchain m) := by
  obtain ⟨ops, hops, hkeys, heq⟩ := saveChainStatus_std s b v m
  rw [heq]
  dsimp only
  rw [dbGet_clean_mcKey]
  rw [batchWrite_append]
  rw [batchWrite_cons, applyOp_set, batchWrite_nil]
  rw [dbGet_dbSet_ne _ _ (blockStoreKey_ne_mcKey (blockHash b))]
  rw [List.singleton_append, batchWrite_cons, applyOp_set]
  have hne : ∀ op ∈ ops, BatchOp.key op ≠ calcMainchainKey (blockHash b) := by
    intro op hm
    obtain ⟨kh, hk⟩ := hkeys op hm
    rw [hk]
    exact utxoKey_ne_mcKey _ _
  rw [dbGet_batchWrite_untouched ops _ hne]
  exact dbGet_dbSet_self _ _ _

/-- C1: after a successful SaveBlock of block B with transaction status T and
seed S, GetBlock at the hash of B returns B, GetBlockHeader returns the
header of B, GetTransactionStatus returns T, and GetSeed returns S.  The
hypothesis states that the cache holds no conflicting entry for the hash,
which invariant I4 guarantees because blocks are content-addressed. -/
theorem saveBlock_roundTrip (s : Store) (b : Block) (t : TransactionStatus) (sd : Hash)
    (hcache : cacheFind s.cache (blockHash b) = none ∨
      cacheFind s.cache (blockHash b) = some b) :
    (Store.SaveBlock stdCodecs s b t sd).1 = .ok () ∧
    (Store.GetBlock (Store.SaveBlock stdCodecs s b t sd).2 (blockHash b)).1 = .ok b ∧
    Store.GetBlockHeader (Store.SaveBlock stdCodecs s b t sd).2 (blockHash b) = .ok b.header ∧
    Store.GetTransactionStatus (Store.SaveBlock stdCodecs s b t sd).2 (blockHash b) = .ok t ∧
    Store.GetSeed (Store.SaveBlock stdCodecs s b t sd).2 (blockHash b) = .ok sd := by
  have hcache2 := saveBlock_cache_eq s b t sd
  have hdbB := saveBlock_db_get_block s b t sd
  have hdbH := saveBlock_db_get_header s b t sd
  have hdbT := saveBlock_db_get_txStatus s b t sd
  have hdbS := saveBlock_db_get_seed s b t sd
  refine ⟨by rw [saveBlock_std], ?_, ?_, ?_, ?_⟩
  · have hl : GetBlockDB (Store.SaveBlock stdCodecs s b t sd).2.db (blockHash b) = some b := by
      simp [GetBlockDB, hdbB, decodeBlock_enc]
    rcases hcache with hc | hc
    · simp [Store.GetBlock, cacheLookup, hcache2, hc, hl]
    · simp [Store.GetBlock, cacheLookup, hcache2, hc]
  · simp [Store.GetBlockHeader, hdbH, decodeBlockHeader_enc]
  · simp [Store.GetTransactionStatus, hdbT, decodeTxStatus_enc]
  · simp [Store.GetSeed, hdbS, decodeSeed_enc]

/-- Witness for C1 at a concrete block, status, seed and empty store. -/
theorem saveBlock_roundTrip_witness :
    (Store.SaveBlock stdCodecs emptyStore sampleBlock sampleStatus sampleSeed).1 = .ok () ∧
    (Store.GetBlock (Store.SaveBlock stdCodecs emptyStore sampleBlock sampleStatus sampleSeed).2
      (blockHash sampleBlock)).1 = .ok sampleBlock ∧
    Store.GetBlockHeader
      (Store.SaveBlock stdCodecs emptyStore sampleBlock sampleStatus sampleSeed).2
      (blockHash sampleBlock) = .ok sampleBlock.header ∧
    Store.GetTransactionStatus
      (Store.SaveBlock stdCodecs emptyStore sampleBlock sampleStatus sampleSeed).2
      (blockHash sampleBlock) = .ok sampleStatus ∧
    Store.GetSeed (Store.SaveBlock stdCodecs emptyStore sampleBlock sampleStatus sampleSeed).2
      (blockHash sampleBlock) = .ok sampleSeed :=
  saveBlock_roundTrip emptyStore sampleBlock sampleStatus sampleSeed (Or.inl rfl)

/-- C8: SaveBlock is idempotent per block hash: saving the same block, status
and seed twice in succession leaves the persisted substrate state (and the
whole store) identical to the state after saving once. -/
theorem saveBlock_idempotent (s : Store) (b : Block) (t : TransactionStatus) (sd : Hash) :
    Store.SaveBlock stdCodecs (Store.SaveBlock stdCodecs s b t sd).2 b t sd =
      Store.SaveBlock stdCodecs s b t sd := by
  have hdbB := saveBlock_db_get_block s b t sd
  have hdbH := saveBlock_db_get_header s b t sd
  have hdbT := saveBlock_db_get_txStatus s b t sd
  have hdbS := saveBlock_db_get_seed s b t sd
  rw [saveBlock_std (Store.SaveBlock stdCodecs s b t sd).2 b t sd]
  rw [dbSet_eq_of_get hdbB, dbSet_eq_of_get hdbH, dbSet_eq_of_get hdbT, dbSet_eq_of_get hdbS]
  rfl

/-- C6: the persisted keys are bit-exact: the calc functions produce the
ASCII prefixes concatenated with the hash bytes, the checkpoint key is the
literal byte string blockStore, and SaveBlock and SaveChainStatus place each
record under exactly those keys. -/
theorem key_layout_exact :
    (∀ h : Hash,
      calcBlockKey h = strBytes "B:" ++ h.bytes ∧
      calcBlockHeaderKey h = strBytes "BH:" ++ h.bytes ∧
      calcSeedKey h = strBytes "BS:" ++ h.bytes ∧
      calcTxStatusKey h = strBytes "BTS:" ++ h.bytes ∧
      strBytes "B:" = [66, 58] ∧ strBytes "BH:" = [66, 72, 58] ∧
      strBytes "BS:" = [66, 83, 58] ∧ strBytes "BTS:" = [66, 84, 83, 58]) ∧
    blockStoreKey = strBytes "blockStore" ∧
    (∀ (s : Store) (b : Block) (t : TransactionStatus) (sd : Hash),
      dbGet (Store.SaveBlock stdCodecs s b t sd).2.db
        (strBytes "B:" ++ (blockHash b).bytes) = some (encodeBlock b) ∧
      dbGet (Store.SaveBlock stdCodecs s b t sd).2.db
        (strBytes "BH:" ++ (blockHash b).bytes) = some (encBlockHeader b.header) ∧
      dbGet (Store.SaveBlock stdCodecs s b t sd).2.db
        (strBytes "BS:" ++ (blockHash b).bytes) = some (encSeed sd) ∧
      dbGet (Store.SaveBlock stdCodecs s b t sd).2.db
        (strBytes "BTS:" ++ (blockHash b).bytes) = some (encTxStatus t)) ∧
    (∀ (s : Store) (b : Block) (v : UtxoViewpoint) (m : List (Nat × Hash)),
      dbGet (Store.SaveChainStatus stdCodecs s b v m).2.db (strBytes "blockStore") =
        some (encStoreState ⟨b.header.height, some (blockHash b)⟩)) := by
  refine ⟨fun h => ⟨rfl, rfl, rfl, rfl, by decide, by decide, by decide, by decide⟩, rfl,
    fun s b t sd => ⟨?_, ?_, ?_, ?_⟩, fun s b v m => ?_⟩
  · exact saveBlock_db_get_block s b t sd
  · exact saveBlock_db_get_header s b t sd
  · exact saveBlock_db_get_seed s b t sd
  · exact saveBlock_db_get_txStatus s b t sd
  · exact scs_db_get_blockStore s b v m

/-- C2: after SaveChainStatus of block B with a view and a height-to-hash
delta succeeds, GetStoreStatus returns the checkpoint of height B.height and
hash of B, and the mainchain lookup under the hash of B returns the delta,
so any height bound in the delta looks up to the hash the delta maps it to. -/
theorem saveChainStatus_checkpoint (s : Store) (b : Block) (v : UtxoViewpoint)
    (m : List (Nat × Hash)) :
    (Store.SaveChainStatus stdCodecs s b v m).1 = .ok () ∧
    Store.GetStoreStatus (Store.SaveChainStatus stdCodecs s b v m).2 =
      .ok ⟨b.header.height, some (blockHash b)⟩ ∧
    Store.GetMainchain (Store.SaveChainStatus stdCodecs s b v m).2 (blockHash b) = .ok m ∧
    (∀ ht hs, lookupHeight m ht = some hs →
      ∃ m2, Store.GetMainchain (Store.SaveChainStatus stdCodecs s b v m).2 (blockHash b) =
        .ok m2 ∧ lookupHeight m2 ht = some hs) := by
  have h1 := scs_fst_ok s b v m
  have h2 : Store.GetStoreStatus (Store.SaveChainStatus stdCodecs s b v m).2 =
      .ok ⟨b.header.height, some (blockHash b)⟩ := by
    simp [Store.GetStoreStatus, loadBlockStoreStateJSON, scs_db_get_blockStore,
      decodeStoreState_enc]
  have h3 : Store.GetMainchain (Store.SaveChainStatus stdCodecs s b v m).2 (blockHash b) =
      .ok m := by
    simp [Store.GetMainchain, getMainchain, scs_db_get_mc, decodeMainchain_enc]
  exact ⟨h1, h2, h3, fun ht hs hl => ⟨m, h3, hl⟩⟩

/-- Witness for C2 at a concrete block, empty view and a one-entry delta. -/
theorem saveChainStatus_checkpoint_witness :
    (Store.SaveChainStatus stdCodecs emptyStore sampleBlock ⟨[]⟩
      [(2, blockHash sampleBlock)]).1 = .ok () ∧
    Store.GetStoreStatus (Store.SaveChainStatus stdCodecs emptyStore sampleBlock ⟨[]⟩
      [(2, blockHash sampleBlock)]).2 = .ok ⟨2, some (blockHash sampleBlock)⟩ ∧
    (∃ m2, Store.GetMainchain (Store.SaveChainStatus stdCodecs emptyStore sampleBlock ⟨[]⟩
      [(2, blockHash sampleBlock)]).2 (blockHash sampleBlock) = .ok m2 ∧
      lookupHeight m2 2 = some (blockHash sampleBlock)) :=
  have h := saveChainStatus_checkpoint emptyStore sampleBlock ⟨[]⟩ [(2, blockHash sampleBlock)]
  ⟨h.1, h.2.1, h.2.2.2 2 (blockHash sampleBlock) rfl⟩

/-- C4: for a hash with no record in the substrate, GetBlockHeader, GetSeed
and GetTransactionStatus each return the NotFound error of the source, not a
Corruption error and not a panic. -/
theorem reads_notFound_when_absent (s : Store) (h : Hash)
    (h1 : dbGet s.db (calcBlockHeaderKey h) = none)
    (h2 : dbGet s.db (calcSeedKey h) = none)
    (h3 : dbGet s.db (calcTxStatusKey h) = none) :
    Store.GetBlockHeader s h = .error (.notFound "can not find the block header by given hash") ∧
    Store.GetSeed s h = .error (.notFound "can not find the seed by given hash") ∧
    Store.GetTransactionStatus s h =
      .error (.notFound "can not find the transaction status by given hash") := by
  refine ⟨?_, ?_, ?_⟩
  · simp [Store.GetBlockHeader, h1]
  · simp [Store.GetSeed, h2]
  · simp [Store.GetTransactionStatus, h3]

/-- Witness for C4 at a concrete hash over the empty substrate. -/
theorem reads_notFound_when_absent_witness :
    Store.GetBlockHeader emptyStore ⟨[7]⟩ =
      .error (.notFound "can not find the block header by given hash") ∧
    Store.GetSeed emptyStore ⟨[7]⟩ = .error (.notFound "can not find the seed by given hash") ∧
    Store.GetTransactionStatus emptyStore ⟨[7]⟩ =
      .error (.notFound "can not find the transaction status by given hash") :=
  reads_notFound_when_absent emptyStore ⟨[7]⟩ rfl rfl rfl

/-- C7: when the blockStore key is absent from the substrate, GetStoreStatus
returns the default status of height 0 with no tip hash and no error. -/
theorem getStoreStatus_default (s : Store) (h : dbGet s.db blockStoreKey = none) :
    Store.GetStoreStatus s = .ok ⟨0, none⟩ := by
  simp [Store.GetStoreStatus, loadBlockStoreStateJSON, h]

/-- Witness for C7 over the empty substrate. -/
theorem getStoreStatus_default_witness :
    Store.GetStoreStatus emptyStore = .ok ⟨0, none⟩ :=
  getStoreStatus_default emptyStore rfl

/-- C9: SaveUtxoView stages the view into a fresh batch but never commits
it, so the store, in particular the persisted substrate state, is unchanged
whatever the view and codecs are. -/
theorem saveUtxoView_no_commit (c : Codecs) (s : Store) (v : UtxoViewpoint) :
    (Store.SaveUtxoView c s v).2 = s := by
  unfold Store.SaveUtxoView
  split <;> rfl

/-- C3: the claim fails on the code for GetBlock.  With undecodable bytes
under the block key, the package-level GetBlock ignores the UnmarshalText
error and returns the zero-value block, and Store.GetBlock then reports it
as a successfully decoded block with no error — while GetSeed and
GetTransactionStatus on the same bytes do surface a corruption error. -/
theorem getBlock_swallows_corruption :
    decodeBlock [5] = none ∧
    GetBlockDB [(calcBlockKey ⟨[1]⟩, [5])] ⟨[1]⟩ = some zeroBlock ∧
    (Store.GetBlock ⟨[(calcBlockKey ⟨[1]⟩, [5])], []⟩ ⟨[1]⟩).1 = .ok zeroBlock ∧
    Store.GetSeed ⟨[(calcSeedKey ⟨[1]⟩, [5])], []⟩ ⟨[1]⟩ =
      .error (.corruption "unmarshaling seed") ∧
    Store.GetTransactionStatus ⟨[(calcTxStatusKey ⟨[1]⟩, [5])], []⟩ ⟨[1]⟩ =
      .error (.corruption "unmarshaling transaction status") := by
  refine ⟨by decide, by decide, by decide, by decide, by decide⟩

/-- C5: if an encode step of SaveBlock or of SaveChainStatus fails, the
operation returns an error and the store, in particular the persisted
substrate state, is completely unchanged. -/
theorem save_encode_failure_noop :
    (∀ (c : Codecs) (s : Store) (b : Block) (t : TransactionStatus) (sd : Hash),
      ((∃ e, c.marshalBlock b = .error e) ∨
       (∃ e, c.marshalBlockHeader b.header = .error e) ∨
       (∃ e, c.marshalTxStatus t = .error e) ∨
       (∃ e, c.marshalSeed sd = .error e)) →
      (∃ e2, (Store.SaveBlock c s b t sd).1 = .error e2) ∧
        (Store.SaveBlock c s b t sd).2 = s) ∧
    (∀ (c : Codecs) (s : Store) (b : Block) (v : UtxoViewpoint) (m : List (Nat × Hash)),
      ((∃ e, c.marshalMainchain m = .error e) ∨
       (∃ e, saveUtxoView c v = .error e) ∨
       (∃ e, c.marshalStoreState ⟨b.header.height, some (blockHash b)⟩ = .error e)) →
      (∃ e2, (Store.SaveChainStatus c s b v m).1 = .error e2) ∧
        (Store.SaveChainStatus c s b v m).2 = s) := by
  constructor
  · intro c s b t sd h
    cases hb : c.marshalBlock b with
    | error e =>
      exact ⟨⟨"Marshal block meta: " ++ e, by simp [Store.SaveBlock, hb]⟩,
        by simp [Store.SaveBlock, hb]⟩
    | ok bb =>
      cases hh : c.marshalBlockHeader b.header with
      | error e =>
        exact ⟨⟨"Marshal block header: " ++ e, by simp [Store.SaveBlock, hb, hh]⟩,
          by simp [Store.SaveBlock, hb, hh]⟩
      | ok bhd =>
        cases htx : c.marshalTxStatus t with
        | error e =>
          exact ⟨⟨"marshal block transaction status: " ++ e,
            by simp [Store.SaveBlock, hb, hh, htx]⟩, by simp [Store.SaveBlock, hb, hh, htx]⟩
        | ok bt =>
          cases hsd : c.marshalSeed sd with
          | error e =>
            exact ⟨⟨"marshal block seed: " ++ e, by simp [Store.SaveBlock, hb, hh, htx, hsd]⟩,
              by simp [Store.SaveBlock, hb, hh, htx, hsd]⟩
          | ok bsd =>
            exfalso
            rcases h with ⟨e, he⟩ | ⟨e, he⟩ | ⟨e, he⟩ | ⟨e, he⟩
            · simp [hb] at he
            · simp [hh] at he
            · simp [htx] at he
            · simp [hsd] at he
  · intro c s b v m h
    cases hm : c.marshalMainchain m with
    | error e =>
      have hsm : saveMainchain c m (blockHash b) = .error e := by simp [saveMainchain, hm]
      exact ⟨⟨e, by simp [Store.SaveChainStatus, hsm]⟩, by simp [Store.SaveChainStatus, hsm]⟩
    | ok bs1 =>
      have hsm : saveMainchain c m (blockHash b) =
          .ok [.set (calcMainchainKey (blockHash b)) bs1] := by
        simp [saveMainchain, hm]
      cases hv : saveUtxoView c v with
      | error e =>
        exact ⟨⟨e, by simp [Store.SaveChainStatus, hsm, hv]⟩,
          by simp [Store.SaveChainStatus, hsm, hv]⟩
      | ok ops =>
        cases hss : c.marshalStoreState ⟨b.header.height, some (blockHash b)⟩ with
        | error e =>
          exact ⟨⟨e, by simp [Store.SaveChainStatus, hsm, hv, hss]⟩,
            by simp [Store.SaveChainStatus, hsm, hv, hss]⟩
        | ok bs2 =>
          exfalso
          rcases h with ⟨e, he⟩ | ⟨e, he⟩ | ⟨e, he⟩
          · simp [hm] at he
          · simp [hv] at he
          · simp [hss] at he

/-- Witness for C5: with codecs that fail, both operations return an error
and leave the empty store unchanged. -/
theorem save_encode_failure_noop_witness :
    ((∃ e2, (Store.SaveBlock failCodecs emptyStore sampleBlock sampleStatus sampleSeed).1 =
        .error e2) ∧
      (Store.SaveBlock failCodecs emptyStore sampleBlock sampleStatus sampleSeed).2 =
        emptyStore) ∧
    ((∃ e2, (Store.SaveChainStatus failCodecs emptyStore sampleBlock ⟨[]⟩ []).1 = .error e2) ∧
      (Store.SaveChainStatus failCodecs emptyStore sampleBlock ⟨[]⟩ []).2 = emptyStore) :=
  ⟨save_encode_failure_noop.1 failCodecs emptyStore sampleBlock sampleStatus sampleSeed
      (Or.inl ⟨"encode failure", rfl⟩),
    save_encode_failure_noop.2 failCodecs emptyStore sampleBlock ⟨[]⟩ []
      (Or.inl ⟨"encode failure", rfl⟩)⟩

end BytomStore
